import Mathlib

/-!
Verification of the Flight Centre cruise/tour itinerary scraper
(`streamlit_app.py`).  The scraper's core is embedded shallowly:

* Python strings are `String` (manipulated through their `List Char` data
  so that everything reduces);
* the BeautifulSoup document is the inductive tree `Node` below, with the
  soup operations (`find`, `find_all`, `get_text(strip=True)`,
  `decompose`) translated as recursive functions;
* the regular expressions used by the scraper are fixed patterns
  (`Day\s+(\d+)`, `Day (\d+):`, `^Day \d+:\s*`) and are translated as
  first-order matching functions with the same semantics (leftmost match,
  greedy repetition — backtracking never helps for these patterns);
* `re`'s `\s`/`\d` and `str.strip` are modelled over their ASCII ranges
  (the scraper only ever meets ASCII whitespace/digits here);
* the mutation performed by `decompose` on the shared tree is modelled
  separately by an explicit tree-transformation (`cruiseEffect`), so that
  the extraction result and the effect on the tree can both be stated.
-/

/-! ### Characters used by the scraper -/

/-- Apostrophe character. -/
def apos : Char := Char.ofNat 39

/-- Double-quote character. -/
def quot : Char := Char.ofNat 34

/-- En dash. -/
def enDash : Char := Char.ofNat 8211

/-- Em dash. -/
def emDash : Char := Char.ofNat 8212

/-- Right single quotation mark. -/
def rsQuote : Char := Char.ofNat 8217

/-- Left single quotation mark. -/
def lsQuote : Char := Char.ofNat 8216

/-- Left double quotation mark. -/
def ldQuote : Char := Char.ofNat 8220

/-- Right double quotation mark. -/
def rdQuote : Char := Char.ofNat 8221

/-- Horizontal ellipsis. -/
def hEllipsis : Char := Char.ofNat 8230

/-- Whitespace as recognised by `str.strip()` / `\s` (ASCII range). -/
def isPyWs (c : Char) : Bool :=
  c = ' ' || c = '\t' || c = '\n' || c = '\r' || c = Char.ofNat 11 || c = Char.ofNat 12

/-! ### Python string primitives -/

/-- `text.replace(c, r)` for a single-character pattern `c`: every
occurrence of `c` is replaced by `r` (Python's `str.replace` with a
one-character `old` argument is exactly per-character substitution). -/
def subst1 (c : Char) (r : List Char) : List Char → List Char
  | [] => []
  | x :: l => (if x = c then r else [x]) ++ subst1 c r l

/-- `str.strip()`: drop leading and trailing whitespace. -/
def trimChars (l : List Char) : List Char :=
  ((l.dropWhile isPyWs).reverse.dropWhile isPyWs).reverse

/-- `text.replace(pat, '')` for an arbitrary substring `pat`: removes the
non-overlapping occurrences left to right (Python returns the string
unchanged when `pat` is empty). -/
def removeSub (pat : List Char) : List Char → List Char
  | [] => []
  | c :: l =>
    if h : pat ≠ [] ∧ pat.isPrefixOf (c :: l) then
      removeSub pat ((c :: l).drop pat.length)
    else
      c :: removeSub pat l
termination_by l => l.length
decreasing_by
  · simp only [List.length_drop, List.length_cons]
    have hp : 1 ≤ pat.length := by
      cases hpat : pat with
      | nil => exact absurd hpat h.1
      | cons a t => simp
    omega
  · simp

/-- `text.split('.')` (Python semantics: `"".split('.') == [""]`,
separators at the ends produce empty fragments). -/
def splitOnDot : List Char → List (List Char)
  | [] => [[]]
  | c :: l =>
    if c = '.' then [] :: splitOnDot l
    else
      match splitOnDot l with
      | [] => [[c]]
      | h :: t => (c :: h) :: t

/-- `sep.join(xs)` on character lists. -/
def joinSep (sep : List Char) : List (List Char) → List Char
  | [] => []
  | [x] => x
  | x :: xs => x ++ sep ++ joinSep sep xs

/-- `sep.join(xs)` on strings. -/
def pyJoin (sep : String) (xs : List String) : String :=
  (joinSep sep.data (xs.map String.data)).asString

/-- `pat in s` (Python substring test). -/
def containsSub (pat : List Char) : List Char → Bool
  | [] => pat.isEmpty
  | c :: l => pat.isPrefixOf (c :: l) || containsSub pat l

/-- `pat in s` on strings. -/
def strContains (s pat : String) : Bool :=
  containsSub pat.data s.data

/-! ### `clean_text` (the text normalizer) -/

/-- The seven replacements of `clean_text`, applied in the source's
(dictionary) order: en dash, em dash, right single quote, left single
quote, left double quote, right double quote, horizontal ellipsis. -/
def cleanList (l : List Char) : List Char :=
  subst1 hEllipsis ['.', '.', '.']
    (subst1 rdQuote [quot]
      (subst1 ldQuote [quot]
        (subst1 lsQuote [apos]
          (subst1 rsQuote [apos]
            (subst1 emDash ['-']
              (subst1 enDash ['-'] l))))))

/-- `clean_text(text)` for a string argument: `if not text: return text`
(only `""` is falsy), else the seven `str.replace` calls. -/
def clean_text (s : String) : String :=
  if s = "" then s else (cleanList s.data).asString

/-- `clean_text(text)` including the `None` case (`if not text` keeps an
absent value unchanged). -/
def clean_text_opt : Option String → Option String
  | none => none
  | some s => some (clean_text s)

/-- The seven Unicode characters that `clean_text` targets. -/
def isTarget (c : Char) : Bool :=
  c = enDash || c = emDash || c = rsQuote || c = lsQuote ||
    c = ldQuote || c = rdQuote || c = hEllipsis

/-! ### The regular expressions -/

/-- `re.search(r'Day\s+(\d+)', text)` attempted at one position: the
literal `Day`, one or more whitespace characters, then the captured run
of digits (greedy matching is complete here: if the maximal munch fails
no backtracked split can succeed).  Returns the captured digits. -/
def matchDayWsAt : List Char → Option (List Char)
  | 'D' :: 'a' :: 'y' :: rest =>
    if rest.takeWhile isPyWs ≠ [] then
      if (rest.dropWhile isPyWs).takeWhile Char.isDigit ≠ [] then
        some ((rest.dropWhile isPyWs).takeWhile Char.isDigit)
      else none
    else none
  | _ => none

/-- `re.search(r'Day\s+(\d+)', text)`: leftmost match wins. -/
def searchDayWs : List Char → Option (List Char)
  | [] => none
  | c :: l =>
    match matchDayWsAt (c :: l) with
    | some ds => some ds
    | none => searchDayWs l

/-- `re.search(r'Day (\d+):', text)` attempted at one position: literal
`Day`, exactly one space, captured digits, then a colon. -/
def matchDayColonAt : List Char → Option (List Char)
  | 'D' :: 'a' :: 'y' :: ' ' :: rest =>
    if rest.takeWhile Char.isDigit ≠ [] ∧
        (rest.dropWhile Char.isDigit).head? = some ':' then
      some (rest.takeWhile Char.isDigit)
    else none
  | _ => none

/-- `re.search(r'Day (\d+):', text)`: leftmost match wins. -/
def searchDayColon : List Char → Option (List Char)
  | [] => none
  | c :: l =>
    match matchDayColonAt (c :: l) with
    | some ds => some ds
    | none => searchDayColon l

/-- `re.sub(r'^Day \d+:\s*', '', text)` when the anchored pattern
matches: returns the remainder after the prefix (the `\s*` eats the
whitespace following the colon); `none` when the text does not start
with `Day <digits>:`. -/
def matchDayPrefix : List Char → Option (List Char)
  | 'D' :: 'a' :: 'y' :: ' ' :: rest =>
    if rest.takeWhile Char.isDigit ≠ [] then
      match rest.dropWhile Char.isDigit with
      | ':' :: r3 => some (r3.dropWhile isPyWs)
      | _ => none
    else none
  | _ => none

/-! ### The parsed document tree (BeautifulSoup) -/

/-- A parsed markup tree: either a text node (`NavigableString`) or an
element with a tag name, the value list of its `class` attribute, and
its children in document order. -/
inductive Node where
  | text : String → Node
  | elem : String → List String → List Node → Node

/-- Children of a node (text nodes have none). -/
def Node.childrenOf : Node → List Node
  | .text _ => []
  | .elem _ _ cs => cs

mutual
/-- BeautifulSoup `stripped_strings`: the descendant text fragments,
each stripped, the empty ones skipped, in document order. -/
def strippedStrings : Node → List String
  | .text s =>
    let t := (trimChars s.data).asString
    if t = "" then [] else [t]
  | .elem _ _ cs => strippedStringsList cs

def strippedStringsList : List Node → List String
  | [] => []
  | n :: ns => strippedStrings n ++ strippedStringsList ns
end

/-- `node.get_text(strip=True)`: `''.join(node.stripped_strings)`. -/
def getTextStrip (n : Node) : String :=
  String.join (strippedStrings n)

mutual
/-- `node.find(pred)`: first descendant (preorder, excluding `node`
itself) satisfying the predicate. -/
def findDesc (p : Node → Bool) : Node → Option Node
  | .text _ => none
  | .elem _ _ cs => findDescList p cs

def findDescList (p : Node → Bool) : List Node → Option Node
  | [] => none
  | n :: ns =>
    if p n then some n
    else
      match findDesc p n with
      | some m => some m
      | none => findDescList p ns
end

mutual
/-- `node.find_all(pred)`: all descendants (preorder, excluding `node`
itself) satisfying the predicate, nested matches included. -/
def findAllDesc (p : Node → Bool) : Node → List Node
  | .text _ => []
  | .elem _ _ cs => findAllDescList p cs

def findAllDescList (p : Node → Bool) : List Node → List Node
  | [] => []
  | n :: ns =>
    (if p n then [n] else []) ++ findAllDesc p n ++ findAllDescList p ns
end

mutual
/-- `decompose()` applied to every descendant matching the predicate:
each matching subtree is removed (the root itself is kept, matching the
source, which only decomposes strict descendants of the `descr` div). -/
def removeAll (p : Node → Bool) : Node → Node
  | .text s => .text s
  | .elem t c cs => .elem t c (removeAllList p cs)

def removeAllList (p : Node → Bool) : List Node → List Node
  | [] => []
  | n :: ns =>
    if p n then removeAllList p ns
    else removeAll p n :: removeAllList p ns
end

/-- Tag test: `find('h5')`, `find_all('p')`, … (tag elements only). -/
def isTag (t : String) (n : Node) : Bool :=
  match n with
  | .elem tag _ _ => tag = t
  | .text _ => false

/-- Tag-and-class test: `find(t, class_=c)` — BeautifulSoup matches when
the (multi-valued) `class` attribute contains `c`. -/
def isTagClass (t c : String) (n : Node) : Bool :=
  match n with
  | .elem tag cls _ => tag = t && cls.contains c
  | .text _ => false

/-- Is the node a `div` element (any class)? -/
def isDiv (n : Node) : Bool :=
  match n with
  | .elem tag _ _ => tag = "div"
  | .text _ => false

/-- `item.find_all('div', recursive=False)`: the direct children that
are `div` elements. -/
def childDivs (item : Node) : List Node :=
  item.childrenOf.filter isDiv

/-- The `span` elements carrying class `more` or `less` ("More"/"Less"
toggle buttons), decomposed before reading a `descr` div's text. -/
def isMoreLess (n : Node) : Bool :=
  match n with
  | .elem tag cls _ => tag = "span" && (cls.contains "more" || cls.contains "less")
  | .text _ => false

/-! ### The data model -/

/-- One itinerary day (`day_info` in the source): the five fixed keys,
`icon` and `image` always empty. -/
structure DayRecord where
  icon : String
  day : String
  title : String
  image : String
  body : String
deriving Repr, DecidableEq

/-! ### `parse_cruise_itinerary_days` -/

/-- The first body tier: a `text-info` span's nested `text-info-summary`
span text (empty string when either span is missing). -/
def resolveBodyA (cw : Node) : String :=
  match findDesc (isTagClass "span" "text-info") cw with
  | some ti =>
    match findDesc (isTagClass "span" "text-info-summary") ti with
    | some ts => getTextStrip ts
    | none => ""
  | none => ""

/-- The second body tier: a `text-info-summary` span found anywhere in
the content wrap. -/
def resolveBodyB (cw : Node) : String :=
  match findDesc (isTagClass "span" "text-info-summary") cw with
  | some ts => getTextStrip ts
  | none => ""

/-- The third body tier: the `descr` div's text after decomposing its
`more`/`less` toggle spans. -/
def resolveBodyC (cw : Node) : String :=
  match findDesc (isTagClass "div" "descr") cw with
  | some d => getTextStrip (removeAll isMoreLess d)
  | none => ""

/-- `description_text` after the three sequential attempts in the
source: each later tier only runs while the accumulator is still empty. -/
def resolveCruiseBody (cw : Node) : String :=
  if resolveBodyA cw ≠ "" then resolveBodyA cw
  else if resolveBodyB cw ≠ "" then resolveBodyB cw
  else resolveBodyC cw

/-- The day-number step on the first child div: `some s` leaves
`day_info['day'] = s`; `none` is the `continue` taken when an `h5`
exists but `re.search(r'Day\s+(\d+)')` fails.  A missing `h5` does not
`continue` — the day just stays `""`. -/
def cruiseDayOf (d1 : Node) : Option String :=
  match findDesc (isTag "h5") d1 with
  | some h =>
    match searchDayWs (getTextStrip h).data with
    | some ds => some ds.asString
    | none => none
  | none => some ""

/-- `day_info['title']` from the second child div: the cleaned text of
its first `h5`, `""` when there is none. -/
def cruiseTitleOf (d2 : Node) : String :=
  match findDesc (isTag "h5") d2 with
  | some h => clean_text (getTextStrip h)
  | none => ""

/-- `day_info['body']` after the `content-wrap` step (before the
"At Sea" and generic fallbacks): the cleaned resolved description, or
`""` when the wrap is missing or every tier came back empty. -/
def cruiseBodyOf (d2 : Node) : String :=
  match findDesc (isTagClass "div" "content-wrap") d2 with
  | some cw =>
    if resolveCruiseBody cw = "" then "" else clean_text (resolveCruiseBody cw)
  | none => ""

/-- The fixed sentence synthesized for an "At Sea" day with no body. -/
def seaSentence : String :=
  "Day at sea - enjoy the ship" ++ String.singleton apos ++
    "s amenities and relax as you cruise to your next destination."

/-- The generic fallback body `f"Explore {title} and enjoy the local
attractions and culture."`. -/
def genericBody (title : String) : String :=
  "Explore " ++ title ++ " and enjoy the local attractions and culture."

/-- `day_info['body']` after the "At Sea" special case. -/
def cruiseBody1 (d2 : Node) : String :=
  if cruiseBodyOf d2 = "" ∧ cruiseTitleOf d2 = "At Sea" then seaSentence
  else cruiseBodyOf d2

/-- `day_info['body']` as emitted: the generic fallback replaces a body
that is still empty at the final check. -/
def cruiseFinalBody (d2 : Node) : String :=
  if cruiseBody1 d2 = "" then genericBody (cruiseTitleOf d2) else cruiseBody1 d2

/-- One iteration of the cruise day loop: `some r` appends `r`, `none`
covers both the `continue` and the failed final `day and title` check. -/
def processCruiseItem (item : Node) : Option DayRecord :=
  match childDivs item with
  | d1 :: d2 :: _ =>
    match cruiseDayOf d1 with
    | none => none
    | some day =>
      if day ≠ "" ∧ cruiseTitleOf d2 ≠ "" then
        some ⟨"", day, cruiseTitleOf d2, "", cruiseFinalBody d2⟩
      else none
  | _ => none

/-- The itinerary container: the `dates-accordion` block, or the
`accordion-block` fallback when the first selector finds nothing. -/
def cruiseContainer (soup : Node) : Option Node :=
  match findDesc (isTagClass "div" "grid-item-block-dates-accordion") soup with
  | some c => some c
  | none => findDesc (isTagClass "div" "accordion-block") soup

/-- `parse_cruise_itinerary_days(soup)`: locate the container (or return
no records at all); then one record per surviving `date-list` item. -/
def parse_cruise_itinerary_days (soup : Node) : List DayRecord :=
  match cruiseContainer soup with
  | none => []
  | some cont =>
    (findAllDesc (isTagClass "div" "date-list") cont).filterMap processCruiseItem

/-! ### `parse_tour_itinerary_description` -/

/-- `[s.strip() for s in text.split('.') if s.strip()]`. -/
def splitFrags (s : String) : List String :=
  ((splitOnDot s.data).map (fun f => (trimChars f).asString)).filter (· ≠ "")

/-- The summary string built from the description node: clean the full
text, split into non-empty stripped sentence fragments, rejoin. -/
def tourSummaryText (d : Node) : String :=
  pyJoin ". " (splitFrags (clean_text (getTextStrip d)))

/-- `parse_tour_itinerary_description(soup)`. -/
def parse_tour_itinerary_description (soup : Node) : List String :=
  match findDesc (isTagClass "div" "ao-clp-custom-tdp-itinerary__description") soup with
  | some d => [tourSummaryText d]
  | none => [""]

/-! ### `parse_tour_itinerary_days` -/

/-- The tour item's title text: `none` when the title div is missing
(the loop `continue`s); otherwise the text with the arrow sub-element's
text removed and stripped, then cleaned. -/
def tourTitleText (item : Node) : Option String :=
  match findDesc (isTagClass "div" "js-ao-common-accordion__title") item with
  | some te =>
    let t0 := getTextStrip te
    let t1 :=
      match findDesc (isTagClass "div" "ao-common-accordion__arrow") te with
      | some ar => (trimChars (removeSub (getTextStrip ar).data t0.data)).asString
      | none => t0
    some (clean_text t1)
  | none => none

/-- The title after `re.sub(r'^Day \d+:\s*', '', t)`: the anchored
prefix is stripped when present, otherwise the text is unchanged. -/
def tourStripTitle (t : String) : String :=
  match matchDayPrefix t.data with
  | some r => r.asString
  | none => t

/-- The day/title step of the tour loop: `none` when
`re.search(r'Day (\d+):')` finds no occurrence anywhere (the item is
skipped); otherwise the captured digits of the leftmost occurrence and
the prefix-stripped title. -/
def tourDayAndTitle (t : String) : Option (String × String) :=
  match searchDayColon t.data with
  | some ds => some (ds.asString, tourStripTitle t)
  | none => none

/-- `day_info['body']` for a tour item: the joined paragraph texts of
the bottom-content div (or its whole text when it has no `p`), cleaned;
`""` when the div is missing. -/
def tourBodyText (item : Node) : String :=
  match findDesc (isTagClass "div" "ao-common-accordion__bottom-content") item with
  | some ce =>
    let ps := findAllDesc (isTag "p") ce
    let bt := if ps.isEmpty then getTextStrip ce else pyJoin " " (ps.map getTextStrip)
    clean_text bt
  | none => ""

/-- One iteration of the tour day loop. -/
def processTourItem (item : Node) : Option DayRecord :=
  match tourTitleText item with
  | none => none
  | some t =>
    match tourDayAndTitle t with
    | none => none
    | some (day, title) =>
      if title ≠ "" ∧ tourBodyText item ≠ "" then
        some ⟨"", day, title, "", tourBodyText item⟩
      else none

/-- `parse_tour_itinerary_days(soup)`. -/
def parse_tour_itinerary_days (soup : Node) : List DayRecord :=
  match findDesc (isTagClass "section" "ao-clp-custom-tdp-itinerary") soup with
  | none => []
  | some sec =>
    (findAllDesc (isTagClass "li" "js-ao-common-accordion") sec).filterMap processTourItem

/-! ### `scrape_content` (the orchestrator) -/

/-- `determine_scraper_type(url)`. -/
def determine_scraper_type (url : String) : Option String :=
  if strContains url "cruises.flightcentre" then some "cruise"
  else if strContains url "tours.flightcentre" then some "tour"
  else none

/-- The two-field result shaped by `scrape_content`. -/
structure ScrapeResult where
  summary : List String
  itinerary : List DayRecord
deriving Repr, DecidableEq

/-- `scrape_content(self, url)`, with the network made explicit: `fetch`
maps a URL to its parsed tree (fetching plus `BeautifulSoup`), and
`robotsUrl` stands for `urljoin(base_url, '/robots.txt')` (kept
abstract; `check_robots_txt` fetches it and ignores every failure).
The second component records the URLs fetched, in order, so that "no
fetch happens" is statable.  The unrecognized-URL branch raises before
any network use. -/
def scrape_content (fetch : String → Node) (robotsUrl : String → String)
    (url : String) : Except String ScrapeResult × List String :=
  match determine_scraper_type url with
  | none =>
    (.error "URL is not a recognized Flight Centre cruise or tour URL", [])
  | some t =>
    let soup := fetch url
    let fetched := [robotsUrl url, url]
    if t = "cruise" then
      (.ok ⟨[""], parse_cruise_itinerary_days soup⟩, fetched)
    else
      (.ok ⟨parse_tour_itinerary_description soup, parse_tour_itinerary_days soup⟩, fetched)

/-! ### The tree mutation performed by the cruise extractor

`parse_cruise_itinerary_days` is not pure on the shared soup: when a
day's body falls through to the `descr` tier, the `More`/`Less` toggle
spans inside that `descr` div are `decompose`d, i.e. removed from the
caller's tree.  The functions below compute the tree left behind by one
call (one surgery per structural step of the source; date-list items are
taken where `find_all` finds them — in vendor markup they are disjoint
siblings, never nested inside one another's content). -/

mutual
/-- Replace the first descendant matching `p` (in `find` order) by `f`
of it; the Bool reports whether a match was found. -/
def mapFirstD (p : Node → Bool) (f : Node → Node) : Node → Node × Bool
  | .text s => (.text s, false)
  | .elem t c cs =>
    let r := mapFirstDL p f cs
    (.elem t c r.1, r.2)

def mapFirstDL (p : Node → Bool) (f : Node → Node) : List Node → List Node × Bool
  | [] => ([], false)
  | n :: ns =>
    if p n then (f n :: ns, true)
    else if (mapFirstD p f n).2 then ((mapFirstD p f n).1 :: ns, true)
    else ((mapFirstD p f n).1 :: (mapFirstDL p f ns).1, (mapFirstDL p f ns).2)
end

mutual
/-- Apply `f` to every descendant matching `p` (not descending into a
replaced subtree). -/
def mapAllD (p : Node → Bool) (f : Node → Node) : Node → Node
  | .text s => .text s
  | .elem t c cs => .elem t c (mapAllDL p f cs)

def mapAllDL (p : Node → Bool) (f : Node → Node) : List Node → List Node
  | [] => []
  | n :: ns => (if p n then f n else mapAllD p f n) :: mapAllDL p f ns
end

/-- The effect of body resolution on a content wrap: only when the
first two tiers fail does the code reach the `descr` div, where it
decomposes the `more`/`less` spans. -/
def cruiseCwEffect (cw : Node) : Node :=
  if resolveBodyA cw = "" ∧ resolveBodyB cw = "" then
    (mapFirstD (isTagClass "div" "descr") (removeAll isMoreLess) cw).1
  else cw

/-- Replace the first `div` among the children by `f` of it. -/
def replaceFstDiv (f : Node → Node) : List Node → List Node
  | [] => []
  | n :: ns =>
    if isDiv n then f n :: ns
    else n :: replaceFstDiv f ns

/-- Replace the second `div` among the children by `f` of it. -/
def replaceSndDiv (f : Node → Node) : List Node → List Node
  | [] => []
  | n :: ns =>
    if isDiv n then n :: replaceFstDiv f ns
    else n :: replaceSndDiv f ns

/-- The effect of one loop iteration on its `date-list` item: body
resolution runs (on the second child div's content wrap) unless the
item has fewer than two child divs or the day regex `continue`d. -/
def cruiseItemEffect (item : Node) : Node :=
  match item with
  | .text s => .text s
  | .elem t c cs =>
    match cs.filter isDiv with
    | d1 :: _ :: _ =>
      match cruiseDayOf d1 with
      | none => .elem t c cs
      | some _ =>
        .elem t c (replaceSndDiv (fun d2 => (mapFirstD (isTagClass "div" "content-wrap") cruiseCwEffect d2).1) cs)
    | _ => .elem t c cs

/-- The effect of the whole loop on the located container. -/
def cruiseContainerEffect (cont : Node) : Node :=
  mapAllD (isTagClass "div" "date-list") cruiseItemEffect cont

/-- The tree left behind by one `parse_cruise_itinerary_days` call. -/
def cruiseEffect (soup : Node) : Node :=
  match findDesc (isTagClass "div" "grid-item-block-dates-accordion") soup with
  | some _ =>
    (mapFirstD (isTagClass "div" "grid-item-block-dates-accordion") cruiseContainerEffect soup).1
  | none =>
    match findDesc (isTagClass "div" "accordion-block") soup with
    | some _ =>
      (mapFirstD (isTagClass "div" "accordion-block") cruiseContainerEffect soup).1
    | none => soup

mutual
/-- No `more`/`less` toggle span anywhere in the tree (root included). -/
def noMoreLess : Node → Bool
  | .text _ => true
  | .elem t c cs => !isMoreLess (.elem t c cs) && noMoreLessList cs

def noMoreLessList : List Node → Bool
  | [] => true
  | n :: ns => noMoreLess n && noMoreLessList ns
end

/-! ### Concrete pages used by scenarios, counterexamples and witnesses -/

/-- A cruise page: one `date-list` item, heading `Day 3`, location
`Nassau`, and a tier-(a) `text-info`/`text-info-summary` body. -/
def cruiseSoupA : Node :=
  .elem "[document]" [] [
    .elem "div" ["grid-item-block-dates-accordion"] [
      .elem "div" ["date-list"] [
        .elem "div" [] [.elem "h5" [] [.text "Day 3"]],
        .elem "div" [] [
          .elem "h5" [] [.text "Nassau"],
          .elem "div" ["content-wrap"] [
            .elem "span" ["text-info"] [
              .elem "span" ["text-info-summary"] [.text "Explore the beaches."]]]]]]]

/-- A `date-list` item titled `At Sea` with no resolvable body. -/
def seaItem : Node :=
  .elem "div" ["date-list"] [
    .elem "div" [] [.elem "h5" [] [.text "Day 4"]],
    .elem "div" [] [.elem "h5" [] [.text "At Sea"]]]

/-- A tour page whose only accordion item's title contains `Day 2:` in
the middle of the text, not at the start. -/
def tourSoupStar : Node :=
  .elem "[document]" [] [
    .elem "section" ["ao-clp-custom-tdp-itinerary"] [
      .elem "li" ["js-ao-common-accordion"] [
        .elem "div" ["js-ao-common-accordion__title"] [.text "* Day 2: Hanoi"],
        .elem "div" ["ao-common-accordion__bottom-content"] [
          .elem "p" [] [.text "B"]]]]]

/-- A tour accordion item whose title is an inclusions row, not a day. -/
def inclusionItem : Node :=
  .elem "li" ["js-ao-common-accordion"] [
    .elem "div" ["js-ao-common-accordion__title"] [.text "Inclusions"],
    .elem "div" ["ao-common-accordion__bottom-content"] [
      .elem "p" [] [.text "Breakfast daily"]]]

/-- A tour page with an itinerary description whose text ends in `.`. -/
def tourDescSoup : Node :=
  .elem "[document]" [] [
    .elem "div" ["ao-clp-custom-tdp-itinerary__description"] [
      .text "Hello there.  World tour. "]]

/-- A page with none of the containers any extractor looks for. -/
def plainSoup : Node :=
  .elem "[document]" [] [.elem "p" [] [.text "nothing here"]]

/-- A cruise page whose day body only lives in a `descr` div that
carries a `More` toggle span: extraction decomposes that span. -/
def mutSoup : Node :=
  .elem "[document]" [] [
    .elem "div" ["grid-item-block-dates-accordion"] [
      .elem "div" ["date-list"] [
        .elem "div" [] [.elem "h5" [] [.text "Day 1"]],
        .elem "div" [] [
          .elem "h5" [] [.text "Oslo"],
          .elem "div" ["content-wrap"] [
            .elem "div" ["descr"] [
              .text "Hello",
              .elem "span" ["more"] [.text "More"]]]]]]]

/-! ### Lemmas about the normalizer -/

theorem subst1_eq_self (c : Char) (r : List Char) :
    ∀ l : List Char, (∀ x ∈ l, x ≠ c) → subst1 c r l = l := by
  intro l h
  induction l with
  | nil => rfl
  | cons x t ih =>
    have hx : x ≠ c := h x (by simp)
    simp only [subst1, if_neg hx]
    simp [ih fun y hy => h y (by simp [hy])]

theorem mem_subst1 (c : Char) (r : List Char) :
    ∀ l x, x ∈ subst1 c r l → x ∈ r ∨ (x ∈ l ∧ x ≠ c) := by
  intro l
  induction l with
  | nil => simp [subst1]
  | cons y t ih =>
    intro x hx
    simp only [subst1, List.mem_append] at hx
    rcases hx with hx | hx
    · by_cases hy : y = c
      · rw [if_pos hy] at hx
        exact Or.inl hx
      · rw [if_neg hy] at hx
        simp only [List.mem_singleton] at hx
        exact Or.inr ⟨by simp [hx], hx ▸ hy⟩
    · rcases ih x hx with h | ⟨h1, h2⟩
      · exact Or.inl h
      · exact Or.inr ⟨by simp [h1], h2⟩

theorem mem_cleanList (l : List Char) (x : Char) (hx : x ∈ cleanList l) :
    isTarget x = false := by
  simp only [cleanList] at hx
  rcases mem_subst1 _ _ _ _ hx with h | ⟨h, hne7⟩
  · simp only [List.mem_cons, List.not_mem_nil, or_false] at h
    rcases h with h | h | h <;> subst h <;> decide
  rcases mem_subst1 _ _ _ _ h with h | ⟨h, hne6⟩
  · simp only [List.mem_singleton] at h; subst h; decide
  rcases mem_subst1 _ _ _ _ h with h | ⟨h, hne5⟩
  · simp only [List.mem_singleton] at h; subst h; decide
  rcases mem_subst1 _ _ _ _ h with h | ⟨h, hne4⟩
  · simp only [List.mem_singleton] at h; subst h; decide
  rcases mem_subst1 _ _ _ _ h with h | ⟨h, hne3⟩
  · simp only [List.mem_singleton] at h; subst h; decide
  rcases mem_subst1 _ _ _ _ h with h | ⟨h, hne2⟩
  · simp only [List.mem_singleton] at h; subst h; decide
  rcases mem_subst1 _ _ _ _ h with h | ⟨h, hne1⟩
  · simp only [List.mem_singleton] at h; subst h; decide
  simp only [isTarget]
  simp [hne1, hne2, hne3, hne4, hne5, hne6, hne7]

theorem cleanList_eq_self (l : List Char) (h : ∀ x ∈ l, isTarget x = false) :
    cleanList l = l := by
  have step : ∀ (c : Char), isTarget c = true → ∀ x ∈ l, x ≠ c := by
    intro c hc x hx he
    subst he
    rw [h x hx] at hc
    exact Bool.false_ne_true hc
  simp only [cleanList]
  rw [subst1_eq_self _ _ l (step enDash (by decide)),
    subst1_eq_self _ _ l (step emDash (by decide)),
    subst1_eq_self _ _ l (step rsQuote (by decide)),
    subst1_eq_self _ _ l (step lsQuote (by decide)),
    subst1_eq_self _ _ l (step ldQuote (by decide)),
    subst1_eq_self _ _ l (step rdQuote (by decide)),
    subst1_eq_self _ _ l (step hEllipsis (by decide))]

theorem cleanList_idem (l : List Char) : cleanList (cleanList l) = cleanList l :=
  cleanList_eq_self _ (fun x hx => mem_cleanList l x hx)

theorem asString_data (l : List Char) : (List.asString l).data = l := rfl

theorem data_asString (s : String) : (List.asString s.data) = s := rfl

theorem clean_text_idem (s : String) : clean_text (clean_text s) = clean_text s := by
  by_cases hs : s = ""
  · subst hs; rfl
  · simp only [clean_text, if_neg hs]
    by_cases ht : (cleanList s.data).asString = ""
    · simp [ht]
    · simp only [if_neg ht, asString_data, cleanList_idem]

theorem clean_text_of_targetFree (s : String) (h : ∀ c ∈ s.data, isTarget c = false) :
    clean_text s = s := by
  by_cases hs : s = ""
  · subst hs; rfl
  · simp only [clean_text, if_neg hs, cleanList_eq_self s.data h, data_asString]

/-- C5: the text normalizer is idempotent; a string containing none of
the seven target Unicode characters is returned unchanged; an absent
input is returned unchanged. -/
theorem clean_text_spec (s : String) :
    clean_text (clean_text s) = clean_text s ∧
    ((∀ c ∈ s.data, isTarget c = false) → clean_text s = s) ∧
    clean_text_opt none = none :=
  ⟨clean_text_idem s, clean_text_of_targetFree s, rfl⟩

/-- Witness for C5 at concrete inputs: a string holding an en dash and
a plain ASCII string. -/
theorem clean_text_spec_witness :
    clean_text (clean_text (List.asString [enDash, 'a'])) =
      clean_text (List.asString [enDash, 'a']) ∧
    clean_text "abc" = "abc" :=
  ⟨(clean_text_spec (List.asString [enDash, 'a'])).1,
    (clean_text_spec "abc").2.1 (by decide)⟩

/-! ### Lemmas about the regex matchers and fixed sentences -/

theorem matchDayWsAt_ne_nil : ∀ l ds, matchDayWsAt l = some ds → ds ≠ [] := by
  intro l ds h
  unfold matchDayWsAt at h
  split at h
  · split at h
    · split at h
      · next hds =>
        simp only [Option.some.injEq] at h
        subst h
        exact hds
      · exact absurd h (by simp)
    · exact absurd h (by simp)
  · exact absurd h (by simp)

theorem searchDayWs_ne_nil : ∀ l ds, searchDayWs l = some ds → ds ≠ [] := by
  intro l
  induction l with
  | nil => intro ds h; exact absurd h (by simp [searchDayWs])
  | cons c t ih =>
    intro ds h
    unfold searchDayWs at h
    split at h
    · next heq => simp only [Option.some.injEq] at h; subst h; exact matchDayWsAt_ne_nil _ _ heq
    · exact ih ds h

theorem matchDayColonAt_ne_nil : ∀ l ds, matchDayColonAt l = some ds → ds ≠ [] := by
  intro l ds h
  unfold matchDayColonAt at h
  split at h
  · split at h
    · next hc =>
      simp only [Option.some.injEq] at h
      subst h
      exact hc.1
    · exact absurd h (by simp)
  · exact absurd h (by simp)

theorem searchDayColon_ne_nil : ∀ l ds, searchDayColon l = some ds → ds ≠ [] := by
  intro l
  induction l with
  | nil => intro ds h; exact absurd h (by simp [searchDayColon])
  | cons c t ih =>
    intro ds h
    unfold searchDayColon at h
    split at h
    · next heq => simp only [Option.some.injEq] at h; subst h; exact matchDayColonAt_ne_nil _ _ heq
    · exact ih ds h

theorem asString_ne_empty {l : List Char} (h : l ≠ []) : List.asString l ≠ "" := by
  intro he
  have h2 : (List.asString l).data = ("" : String).data := by rw [he]
  rw [asString_data] at h2
  exact h h2

theorem genericBody_ne_empty (t : String) : genericBody t ≠ "" := by
  intro h
  have hl := congrArg String.length h
  simp only [genericBody, String.length_append] at hl
  have h8 : ("Explore " : String).length = 8 := by decide
  have h0 : ("" : String).length = 0 := by decide
  rw [h8, h0] at hl
  omega

theorem seaSentence_ne_empty : seaSentence ≠ "" := by decide
theorem cruiseFinalBody_ne_empty (d2 : Node) : cruiseFinalBody d2 ≠ "" := by
  unfold cruiseFinalBody
  split
  · exact genericBody_ne_empty _
  · next hb => exact hb

theorem processCruiseItem_nonempty (item : Node) (r : DayRecord)
    (h : processCruiseItem item = some r) :
    r.day ≠ "" ∧ r.title ≠ "" ∧ r.body ≠ "" := by
  unfold processCruiseItem at h
  split at h
  · split at h
    · exact absurd h (by simp)
    · split at h
      · next hc =>
        simp only [Option.some.injEq] at h
        subst h
        exact ⟨hc.1, hc.2, cruiseFinalBody_ne_empty _⟩
      · exact absurd h (by simp)
  · exact absurd h (by simp)

theorem processTourItem_nonempty (item : Node) (r : DayRecord)
    (h : processTourItem item = some r) :
    r.day ≠ "" ∧ r.title ≠ "" ∧ r.body ≠ "" := by
  unfold processTourItem at h
  split at h
  · exact absurd h (by simp)
  · next t heq =>
    split at h
    · exact absurd h (by simp)
    · next day title heq2 =>
      split at h
      · next hc =>
        simp only [Option.some.injEq] at h
        subst h
        refine ⟨?_, hc.1, hc.2⟩
        unfold tourDayAndTitle at heq2
        split at heq2
        · next ds hds =>
          simp only [Option.some.injEq, Prod.mk.injEq] at heq2
          have : ds ≠ [] := searchDayColon_ne_nil _ _ hds
          rw [← heq2.1]
          exact asString_ne_empty this
        · exact absurd heq2 (by simp)
      · exact absurd h (by simp)

theorem mem_parse_cruise (soup : Node) (r : DayRecord)
    (h : r ∈ parse_cruise_itinerary_days soup) :
    ∃ item, processCruiseItem item = some r := by
  unfold parse_cruise_itinerary_days at h
  split at h
  · exact absurd h (by simp)
  · obtain ⟨a, -, ha⟩ := List.mem_filterMap.mp h
    exact ⟨a, ha⟩

theorem mem_parse_tour (soup : Node) (r : DayRecord)
    (h : r ∈ parse_tour_itinerary_days soup) :
    ∃ item, processTourItem item = some r := by
  unfold parse_tour_itinerary_days at h
  split at h
  · exact absurd h (by simp)
  · obtain ⟨a, -, ha⟩ := List.mem_filterMap.mp h
    exact ⟨a, ha⟩

theorem processTourItem_drop_empty_body (item : Node) (hb : tourBodyText item = "") :
    processTourItem item = none := by
  unfold processTourItem
  split
  · rfl
  · split
    · rfl
    · rw [if_neg]
      intro hc
      exact hc.2 hb

/-- C1: every emitted `DayRecord`, cruise or tour, has non-empty `day`
and `title`; every emitted record also has non-empty `body` (for
cruises it is synthesized when absent, and for tours this holds although
the inclusion check tests only `title` and `body` — the day capture is a
non-empty digit run whenever the item survives); a tour item whose
resolved body is empty is dropped entirely. -/
theorem emitted_records_nonempty (soup : Node) (r : DayRecord) :
    (r ∈ parse_cruise_itinerary_days soup →
      r.day ≠ "" ∧ r.title ≠ "" ∧ r.body ≠ "") ∧
    (r ∈ parse_tour_itinerary_days soup →
      r.day ≠ "" ∧ r.title ≠ "" ∧ r.body ≠ "") ∧
    (∀ item, tourBodyText item = "" → processTourItem item = none) := by
  refine ⟨fun h => ?_, fun h => ?_, processTourItem_drop_empty_body⟩
  · obtain ⟨item, hi⟩ := mem_parse_cruise soup r h
    exact processCruiseItem_nonempty item r hi
  · obtain ⟨item, hi⟩ := mem_parse_tour soup r h
    exact processTourItem_nonempty item r hi

/-- Witness for C1: the record extracted from the concrete cruise page
`cruiseSoupA` has non-empty `day`, `title` and `body`. -/
theorem emitted_records_nonempty_witness :
    (⟨"", "3", "Nassau", "", "Explore the beaches."⟩ : DayRecord).day ≠ "" ∧
    (⟨"", "3", "Nassau", "", "Explore the beaches."⟩ : DayRecord).title ≠ "" ∧
    (⟨"", "3", "Nassau", "", "Explore the beaches."⟩ : DayRecord).body ≠ "" :=
  (emitted_records_nonempty cruiseSoupA ⟨"", "3", "Nassau", "", "Explore the beaches."⟩).1
    (by decide)

/-- C2: URL classification: `cruises.flightcentre` present (checked
first) means cruise, else `tours.flightcentre` present means tour, else
unrecognized; and for unrecognized URLs `scrape_content` raises the
unrecognized-URL error with an empty fetch trace — no fetch happens. -/
theorem classify_and_dispatch (url : String) :
    (strContains url "cruises.flightcentre" = true →
      determine_scraper_type url = some "cruise") ∧
    (strContains url "cruises.flightcentre" = false →
      strContains url "tours.flightcentre" = true →
      determine_scraper_type url = some "tour") ∧
    (strContains url "cruises.flightcentre" = false →
      strContains url "tours.flightcentre" = false →
      determine_scraper_type url = none ∧
      ∀ (fetch : String → Node) (robotsUrl : String → String),
        scrape_content fetch robotsUrl url =
          (.error "URL is not a recognized Flight Centre cruise or tour URL", [])) := by
  refine ⟨fun h1 => ?_, fun h1 h2 => ?_, fun h1 h2 => ?_⟩
  · simp [determine_scraper_type, h1]
  · simp [determine_scraper_type, h1, h2]
  · have hd : determine_scraper_type url = none := by
      simp [determine_scraper_type, h1, h2]
    refine ⟨hd, fun fetch robotsUrl => ?_⟩
    unfold scrape_content
    rw [hd]

/-- Witness for C2 at three concrete URLs (cruise, tour, unrecognized),
with a concrete fetch oracle for the no-fetch part. -/
theorem classify_and_dispatch_witness :
    determine_scraper_type "https://cruises.flightcentre.com.au/cruises/x" = some "cruise" ∧
    determine_scraper_type "https://tours.flightcentre.com.au/t/1842" = some "tour" ∧
    determine_scraper_type "https://example.com/page" = none ∧
    scrape_content (fun _ => Node.text "") (fun u => u) "https://example.com/page" =
      (.error "URL is not a recognized Flight Centre cruise or tour URL", []) :=
  ⟨(classify_and_dispatch "https://cruises.flightcentre.com.au/cruises/x").1 (by decide),
    (classify_and_dispatch "https://tours.flightcentre.com.au/t/1842").2.1
      (by decide) (by decide),
    ((classify_and_dispatch "https://example.com/page").2.2 (by decide) (by decide)).1,
    ((classify_and_dispatch "https://example.com/page").2.2 (by decide) (by decide)).2
      (fun _ => Node.text "") (fun u => u)⟩

/-- C3: the cruise body is resolved by the three-tier fallback in
priority order, stopping at the first non-empty success, and the
concrete `Day 3` / `Nassau` page yields exactly the claimed record. -/
theorem cruise_body_fallback (cw : Node) :
    (resolveBodyA cw ≠ "" → resolveCruiseBody cw = resolveBodyA cw) ∧
    (resolveBodyA cw = "" → resolveBodyB cw ≠ "" →
      resolveCruiseBody cw = resolveBodyB cw) ∧
    (resolveBodyA cw = "" → resolveBodyB cw = "" →
      resolveCruiseBody cw = resolveBodyC cw) ∧
    parse_cruise_itinerary_days cruiseSoupA =
      [⟨"", "3", "Nassau", "", "Explore the beaches."⟩] := by
  refine ⟨fun hA => ?_, fun hA hB => ?_, fun hA hB => ?_, by decide⟩
  · simp [resolveCruiseBody, hA]
  · simp [resolveCruiseBody, hA, hB]
  · simp [resolveCruiseBody, hA, hB]

/-- Witness for C3: a content wrap whose only body source is the third
(`descr`) tier resolves to that tier's text. -/
theorem cruise_body_fallback_witness :
    resolveCruiseBody
        (Node.elem "div" ["content-wrap"] [Node.elem "div" ["descr"] [Node.text "D"]]) =
      resolveBodyC
        (Node.elem "div" ["content-wrap"] [Node.elem "div" ["descr"] [Node.text "D"]]) :=
  (cruise_body_fallback
      (Node.elem "div" ["content-wrap"] [Node.elem "div" ["descr"] [Node.text "D"]])).2.2.1
    (by decide) (by decide)

theorem processCruiseItem_eq (item d1 d2 : Node) (rest : List Node)
    (hdivs : childDivs item = d1 :: d2 :: rest) :
    processCruiseItem item =
      match cruiseDayOf d1 with
      | none => none
      | some day =>
        if day ≠ "" ∧ cruiseTitleOf d2 ≠ "" then
          some ⟨"", day, cruiseTitleOf d2, "", cruiseFinalBody d2⟩
        else none := by
  unfold processCruiseItem
  rw [hdivs]

/-- C6: a cruise day whose resolved title is exactly `At Sea` and whose
body resolution produced no text is emitted (when emitted at all) with
the fixed sea-day sentence as its `body`. -/
theorem atSea_body (item d1 d2 : Node) (rest : List Node) (r : DayRecord)
    (hdivs : childDivs item = d1 :: d2 :: rest)
    (htitle : cruiseTitleOf d2 = "At Sea")
    (hbody : cruiseBodyOf d2 = "")
    (h : processCruiseItem item = some r) :
    r.body = seaSentence := by
  rw [processCruiseItem_eq item d1 d2 rest hdivs] at h
  split at h
  · exact absurd h (by simp)
  · split at h
    · simp only [Option.some.injEq] at h
      subst h
      show cruiseFinalBody d2 = seaSentence
      unfold cruiseFinalBody cruiseBody1
      rw [htitle, hbody]
      simp [seaSentence_ne_empty]
    · exact absurd h (by simp)

/-- Witness for C6: the concrete `At Sea` item (no content wrap at all)
is emitted with the sea-day sentence. -/
theorem atSea_body_witness :
    (⟨"", "4", "At Sea", "", seaSentence⟩ : DayRecord).body = seaSentence :=
  atSea_body seaItem
    (Node.elem "div" [] [Node.elem "h5" [] [Node.text "Day 4"]])
    (Node.elem "div" [] [Node.elem "h5" [] [Node.text "At Sea"]])
    [] ⟨"", "4", "At Sea", "", seaSentence⟩ rfl (by decide) rfl (by decide)

theorem parse_tour_desc_present (soup d : Node)
    (h : findDesc (isTagClass "div" "ao-clp-custom-tdp-itinerary__description") soup =
      some d) :
    parse_tour_itinerary_description soup = [tourSummaryText d] := by
  unfold parse_tour_itinerary_description
  rw [h]

/-- C7: the tour summary is always a sequence of exactly one string —
the empty string when the description node is absent, and otherwise the
node's cleaned text split on `.` into non-empty stripped fragments and
rejoined with `". "`. -/
theorem tour_summary_shape (soup : Node) :
    (parse_tour_itinerary_description soup).length = 1 ∧
    (findDesc (isTagClass "div" "ao-clp-custom-tdp-itinerary__description") soup = none →
      parse_tour_itinerary_description soup = [""]) ∧
    (∀ d, findDesc (isTagClass "div" "ao-clp-custom-tdp-itinerary__description") soup = some d →
      parse_tour_itinerary_description soup = [tourSummaryText d]) := by
  refine ⟨?_, fun h => ?_, fun d h => ?_⟩
  · unfold parse_tour_itinerary_description
    split <;> rfl
  · unfold parse_tour_itinerary_description
    rw [h]
  · exact parse_tour_desc_present soup d h

/-- Witness for C7 on two concrete pages: one with no description node
and one with a description node. -/
theorem tour_summary_shape_witness :
    parse_tour_itinerary_description plainSoup = [""] ∧
    parse_tour_itinerary_description tourDescSoup =
      [tourSummaryText
        (Node.elem "div" ["ao-clp-custom-tdp-itinerary__description"]
          [Node.text "Hello there.  World tour. "])] :=
  ⟨(tour_summary_shape plainSoup).2.1 rfl,
    (tour_summary_shape tourDescSoup).2.2
      (Node.elem "div" ["ao-clp-custom-tdp-itinerary__description"]
        [Node.text "Hello there.  World tour. "]) rfl⟩

/-- C8: a parsed page with no recognised container yields an empty
sequence rather than an error (for cruises, when both the
dates-accordion and the generic accordion block are absent; for tours,
when the itinerary section is absent), and malformed individual items
are skipped locally: a cruise item with fewer than two child divs, or a
tour item with no title div, contributes nothing.  All extractors are
total functions — no malformed fragment can raise. -/
theorem missing_containers_empty (soup item : Node) :
    (findDesc (isTagClass "div" "grid-item-block-dates-accordion") soup = none →
      findDesc (isTagClass "div" "accordion-block") soup = none →
      parse_cruise_itinerary_days soup = []) ∧
    (findDesc (isTagClass "section" "ao-clp-custom-tdp-itinerary") soup = none →
      parse_tour_itinerary_days soup = []) ∧
    ((childDivs item).length ≤ 1 → processCruiseItem item = none) ∧
    (tourTitleText item = none → processTourItem item = none) := by
  refine ⟨fun h1 h2 => ?_, fun h => ?_, fun hlen => ?_, fun ht => ?_⟩
  · unfold parse_cruise_itinerary_days cruiseContainer
    rw [h1, h2]
  · unfold parse_tour_itinerary_days
    rw [h]
  · unfold processCruiseItem
    rcases hc : childDivs item with _ | ⟨a, _ | ⟨b, t⟩⟩
    · rfl
    · rfl
    · rw [hc] at hlen
      simp only [List.length_cons] at hlen
      omega
  · unfold processTourItem
    rw [ht]

/-- Witness for C8 at a concrete page with no containers and concrete
malformed items. -/
theorem missing_containers_empty_witness :
    parse_cruise_itinerary_days plainSoup = [] ∧
    parse_tour_itinerary_days plainSoup = [] ∧
    processCruiseItem (Node.elem "div" ["date-list"] []) = none ∧
    processTourItem (Node.elem "li" ["js-ao-common-accordion"] []) = none :=
  ⟨(missing_containers_empty plainSoup (Node.elem "div" ["date-list"] [])).1 rfl rfl,
    (missing_containers_empty plainSoup (Node.elem "div" ["date-list"] [])).2.1 rfl,
    (missing_containers_empty plainSoup (Node.elem "div" ["date-list"] [])).2.2.1
      (by decide),
    (missing_containers_empty plainSoup
        (Node.elem "li" ["js-ao-common-accordion"] [])).2.2.2 rfl⟩

/-- C4, counterexample: the claim says a tour item whose title does not
match `Day <N>:` at the start is skipped, and that an emitted title is
the remainder after the prefix.  The code uses an unanchored
`re.search`: on the concrete page whose only item is titled
`* Day 2: Hanoi` there is no match at the start, yet the item is
emitted — with the day captured from the middle of the text and the
full, unstripped text as its title. -/
theorem tour_day_anchor_counterexample :
    matchDayColonAt ("* Day 2: Hanoi").data = none ∧
    parse_tour_itinerary_days tourSoupStar =
      [⟨"", "2", "* Day 2: Hanoi", "", "B"⟩] :=
  ⟨rfl, by decide⟩

/-- C4 as amended: the title is searched anywhere for `Day <N>:`; no
occurrence at all means the item is skipped; on a match, `day` is the
leftmost occurrence's captured number, and the `Day <N>:` prefix (plus
following whitespace) is stripped from the title only when it sits at
the very start — otherwise the title is the full text. -/
theorem tour_day_match_amended (item : Node) (t : String) :
    (tourTitleText item = some t → searchDayColon t.data = none →
      processTourItem item = none) ∧
    (∀ ds, searchDayColon t.data = some ds →
      tourDayAndTitle t = some (ds.asString, tourStripTitle t)) ∧
    (∀ r, matchDayPrefix t.data = some r → tourStripTitle t = r.asString) ∧
    (matchDayPrefix t.data = none → tourStripTitle t = t) := by
  refine ⟨fun ht hs => ?_, fun ds hds => ?_, fun r hr => ?_, fun hn => ?_⟩
  · unfold processTourItem
    rw [ht]
    dsimp only
    have hd : tourDayAndTitle t = none := by
      unfold tourDayAndTitle
      rw [hs]
    rw [hd]
  · unfold tourDayAndTitle
    rw [hds]
  · unfold tourStripTitle
    rw [hr]
  · unfold tourStripTitle
    rw [hn]

/-- Witness for C4 as amended: the concrete inclusions row is skipped,
and an anchored `Day 2:` title is stripped down to the remainder. -/
theorem tour_day_match_amended_witness :
    processTourItem inclusionItem = none ∧
    tourStripTitle "Day 2: Hoi An" = "Hoi An" :=
  ⟨(tour_day_match_amended inclusionItem "Inclusions").1 rfl rfl,
    (tour_day_match_amended inclusionItem "Day 2: Hoi An").2.2.1 ("Hoi An".data) rfl⟩

/-! ### Lemmas for the summary's trailing period -/

theorem splitOnDot_ne_nil : ∀ l : List Char, splitOnDot l ≠ [] := by
  intro l
  induction l with
  | nil => simp [splitOnDot]
  | cons c t ih =>
    unfold splitOnDot
    split
    · simp
    · split
      · simp
      · simp

theorem not_dot_mem_splitOnDot : ∀ (l : List Char) (f : List Char),
    f ∈ splitOnDot l → '.' ∉ f := by
  intro l
  induction l with
  | nil =>
    intro f hf
    simp only [splitOnDot, List.mem_singleton] at hf
    subst hf
    simp
  | cons c t ih =>
    intro f hf
    unfold splitOnDot at hf
    split at hf
    · rcases List.mem_cons.mp hf with h | h
      · subst h; simp
      · exact ih f h
    · next hc =>
      rcases hr : splitOnDot t with _ | ⟨h0, t0⟩
      · exact absurd hr (splitOnDot_ne_nil t)
      · rw [hr] at hf
        rcases List.mem_cons.mp hf with h | h
        · subst h
          intro hm
          rcases List.mem_cons.mp hm with h | h
          · exact hc h.symm
          · exact ih h0 (by rw [hr]; exact List.mem_cons_self h0 t0) h
        · exact ih f (by rw [hr]; exact List.mem_cons_of_mem h0 h)

theorem mem_trimChars {l : List Char} {x : Char} (h : x ∈ trimChars l) : x ∈ l := by
  unfold trimChars at h
  rw [List.mem_reverse] at h
  have h2 := (List.dropWhile_sublist isPyWs).mem h
  rw [List.mem_reverse] at h2
  exact (List.dropWhile_sublist isPyWs).mem h2

theorem String_data_ne_nil {s : String} (h : s ≠ "") : s.data ≠ [] := by
  intro hd
  have h2 := congrArg List.asString hd
  rw [data_asString] at h2
  exact h h2

theorem splitFrags_props (s : String) (f : String) (hf : f ∈ splitFrags s) :
    f ≠ "" ∧ '.' ∉ f.data := by
  unfold splitFrags at hf
  obtain ⟨hmem, hne⟩ := List.mem_filter.mp hf
  obtain ⟨g, hg, hfg⟩ := List.mem_map.mp hmem
  refine ⟨by simpa using hne, ?_⟩
  subst hfg
  rw [asString_data]
  intro hdot
  exact not_dot_mem_splitOnDot s.data g hg (mem_trimChars hdot)

theorem joinSep_ne_nil (sep : List Char) (y : List Char) (t : List (List Char))
    (hy : y ≠ []) : joinSep sep (y :: t) ≠ [] := by
  cases t with
  | nil => simpa [joinSep] using hy
  | cons z t' =>
    unfold joinSep
    simp [hy]

theorem joinSep_getLast (sep : List Char) :
    ∀ xs : List (List Char), (∀ f ∈ xs, f ≠ [] ∧ '.' ∉ f) →
      joinSep sep xs = [] ∨
        ∃ a, (joinSep sep xs).getLast? = some a ∧ a ≠ '.' := by
  intro xs
  induction xs with
  | nil => intro _; exact Or.inl rfl
  | cons x t ih =>
    intro hall
    cases t with
    | nil =>
      obtain ⟨hx, hdot⟩ := hall x (by simp)
      refine Or.inr ⟨x.getLast hx, ?_, ?_⟩
      · show (joinSep sep [x]).getLast? = _
        unfold joinSep
        exact List.getLast?_eq_getLast x hx
      · intro he
        exact hdot (he ▸ List.getLast_mem hx)
    | cons y t' =>
      obtain ⟨hy, -⟩ := hall y (by simp)
      rcases ih (fun f hf => hall f (List.mem_cons_of_mem x hf)) with hnil | ⟨a, hl, hne⟩
      · exact absurd hnil (joinSep_ne_nil sep y t' hy)
      · refine Or.inr ⟨a, ?_, hne⟩
        show (joinSep sep (x :: y :: t')).getLast? = some a
        unfold joinSep
        rw [List.append_assoc, List.getLast?_append, List.getLast?_append, hl]
        simp [Option.or_some]

theorem tourSummaryText_no_trailing_dot (d : Node) :
    ¬ (tourSummaryText d).data.getLast? = some '.' := by
  unfold tourSummaryText pyJoin
  rw [asString_data]
  have hall : ∀ f ∈ (splitFrags (clean_text (getTextStrip d))).map String.data,
      f ≠ [] ∧ '.' ∉ f := by
    intro f hf
    obtain ⟨g, hg, hfg⟩ := List.mem_map.mp hf
    obtain ⟨hne, hdot⟩ := splitFrags_props _ g hg
    subst hfg
    exact ⟨String_data_ne_nil hne, hdot⟩
  rcases joinSep_getLast (". ".data) _ hall with hnil | ⟨a, hl, hne⟩
  · rw [hnil]
    simp
  · rw [hl]
    simp only [Option.some.injEq]
    intro h
    exact hne h

/-- C10: when the tour description node is present with non-empty text
ending in `.`, the single summary string does not end with `.` — the
split-on-`.` / rejoin-with-`". "` step drops the final period.  (The
proof shows the conclusion holds for every present description node:
each kept fragment is non-empty and dot-free, so the joined string can
never end in a dot.) -/
theorem tour_summary_drops_final_dot (soup d : Node)
    (hfind : findDesc (isTagClass "div" "ao-clp-custom-tdp-itinerary__description") soup =
      some d)
    (hne : getTextStrip d ≠ "")
    (hdot : (getTextStrip d).data.getLast? = some '.')
    (s : String)
    (hs : parse_tour_itinerary_description soup = [s]) :
    ¬ s.data.getLast? = some '.' := by
  have h2 := parse_tour_desc_present soup d hfind
  rw [h2] at hs
  simp only [List.cons.injEq, and_true] at hs
  subst hs
  exact tourSummaryText_no_trailing_dot d

/-- Witness for C10: the concrete description `Hello there.  World
tour. ` (text ends with a period) yields `Hello there. World tour`. -/
theorem tour_summary_drops_final_dot_witness :
    ¬ ("Hello there. World tour" : String).data.getLast? = some '.' :=
  tour_summary_drops_final_dot tourDescSoup
    (Node.elem "div" ["ao-clp-custom-tdp-itinerary__description"]
      [Node.text "Hello there.  World tour. "])
    rfl (by decide) (by decide) "Hello there. World tour" (by decide)

/-! ### Lemmas about the tree mutation -/

theorem isMoreLess_false_of {n : Node} (h : noMoreLess n = true) :
    isMoreLess n = false := by
  cases n with
  | text s => rfl
  | elem t c cs =>
    unfold noMoreLess at h
    rw [Bool.and_eq_true] at h
    simpa using h.1

theorem noMoreLessList_head {n : Node} {ns : List Node}
    (h : noMoreLessList (n :: ns) = true) :
    noMoreLess n = true ∧ noMoreLessList ns = true := by
  unfold noMoreLessList at h
  rw [Bool.and_eq_true] at h
  exact h

theorem noMoreLess_children {t : String} {c : List String} {cs : List Node}
    (h : noMoreLess (.elem t c cs) = true) : noMoreLessList cs = true := by
  unfold noMoreLess at h
  rw [Bool.and_eq_true] at h
  exact h.2

theorem noMoreLess_of_mem : ∀ {cs : List Node} {n : Node},
    noMoreLessList cs = true → n ∈ cs → noMoreLess n = true := by
  intro cs
  induction cs with
  | nil => intro n _ hm; exact absurd hm (by simp)
  | cons x t ih =>
    intro n h hm
    obtain ⟨hx, ht⟩ := noMoreLessList_head h
    rcases List.mem_cons.mp hm with h1 | h1
    · subst h1; exact hx
    · exact ih ht h1

mutual
theorem removeAll_ml_eq_self : ∀ n : Node, noMoreLess n = true →
    removeAll isMoreLess n = n
  | .text s, _ => rfl
  | .elem t c cs, h => by
    show Node.elem t c (removeAllList isMoreLess cs) = Node.elem t c cs
    rw [removeAllList_ml_eq_self cs (noMoreLess_children h)]

theorem removeAllList_ml_eq_self : ∀ ns : List Node, noMoreLessList ns = true →
    removeAllList isMoreLess ns = ns
  | [], _ => rfl
  | n :: ns, h => by
    obtain ⟨hn, hns⟩ := noMoreLessList_head h
    show (if isMoreLess n then removeAllList isMoreLess ns
      else removeAll isMoreLess n :: removeAllList isMoreLess ns) = n :: ns
    rw [isMoreLess_false_of hn]
    simp only [Bool.false_eq_true, if_false]
    rw [removeAll_ml_eq_self n hn, removeAllList_ml_eq_self ns hns]
end

mutual
theorem mapFirstD_eq_self (p : Node → Bool) (f : Node → Node)
    (hf : ∀ m, noMoreLess m = true → f m = m) :
    ∀ n : Node, noMoreLess n = true → (mapFirstD p f n).1 = n
  | .text s, _ => rfl
  | .elem t c cs, h => by
    show Node.elem t c (mapFirstDL p f cs).1 = Node.elem t c cs
    rw [mapFirstDL_eq_self p f hf cs (noMoreLess_children h)]

theorem mapFirstDL_eq_self (p : Node → Bool) (f : Node → Node)
    (hf : ∀ m, noMoreLess m = true → f m = m) :
    ∀ ns : List Node, noMoreLessList ns = true → (mapFirstDL p f ns).1 = ns
  | [], _ => rfl
  | n :: ns, h => by
    obtain ⟨hn, hns⟩ := noMoreLessList_head h
    show (if p n then (f n :: ns, true)
      else if (mapFirstD p f n).2 then ((mapFirstD p f n).1 :: ns, true)
      else ((mapFirstD p f n).1 :: (mapFirstDL p f ns).1,
        (mapFirstDL p f ns).2)).1 = n :: ns
    by_cases hp : p n
    · rw [if_pos hp]
      show f n :: ns = n :: ns
      rw [hf n hn]
    · rw [if_neg hp]
      by_cases h2 : (mapFirstD p f n).2
      · rw [if_pos h2]
        show (mapFirstD p f n).1 :: ns = n :: ns
        rw [mapFirstD_eq_self p f hf n hn]
      · rw [if_neg h2]
        show (mapFirstD p f n).1 :: (mapFirstDL p f ns).1 = n :: ns
        rw [mapFirstD_eq_self p f hf n hn, mapFirstDL_eq_self p f hf ns hns]
end

mutual
theorem mapAllD_eq_self (p : Node → Bool) (f : Node → Node)
    (hf : ∀ m, noMoreLess m = true → f m = m) :
    ∀ n : Node, noMoreLess n = true → mapAllD p f n = n
  | .text s, _ => rfl
  | .elem t c cs, h => by
    show Node.elem t c (mapAllDL p f cs) = Node.elem t c cs
    rw [mapAllDL_eq_self p f hf cs (noMoreLess_children h)]

theorem mapAllDL_eq_self (p : Node → Bool) (f : Node → Node)
    (hf : ∀ m, noMoreLess m = true → f m = m) :
    ∀ ns : List Node, noMoreLessList ns = true → mapAllDL p f ns = ns
  | [], _ => rfl
  | n :: ns, h => by
    obtain ⟨hn, hns⟩ := noMoreLessList_head h
    show (if p n then f n else mapAllD p f n) :: mapAllDL p f ns = n :: ns
    rw [mapAllDL_eq_self p f hf ns hns]
    by_cases hp : p n
    · rw [if_pos hp, hf n hn]
    · rw [if_neg hp, mapAllD_eq_self p f hf n hn]
end

theorem replaceFstDiv_eq_self (f : Node → Node) :
    ∀ cs : List Node, (∀ n ∈ cs, f n = n) → replaceFstDiv f cs = cs := by
  intro cs
  induction cs with
  | nil => intro _; rfl
  | cons n ns ih =>
    intro h
    show (if isDiv n then f n :: ns else n :: replaceFstDiv f ns) = n :: ns
    by_cases hd : isDiv n
    · rw [if_pos hd, h n (by simp)]
    · rw [if_neg hd, ih fun m hm => h m (List.mem_cons_of_mem n hm)]

theorem replaceSndDiv_eq_self (f : Node → Node) :
    ∀ cs : List Node, (∀ n ∈ cs, f n = n) → replaceSndDiv f cs = cs := by
  intro cs
  induction cs with
  | nil => intro _; rfl
  | cons n ns ih =>
    intro h
    show (if isDiv n then n :: replaceFstDiv f ns else n :: replaceSndDiv f ns) = n :: ns
    by_cases hd : isDiv n
    · rw [if_pos hd,
        replaceFstDiv_eq_self f ns fun m hm => h m (List.mem_cons_of_mem n hm)]
    · rw [if_neg hd, ih fun m hm => h m (List.mem_cons_of_mem n hm)]

theorem cruiseCwEffect_eq_self (cw : Node) (h : noMoreLess cw = true) :
    cruiseCwEffect cw = cw := by
  unfold cruiseCwEffect
  split
  · exact mapFirstD_eq_self _ _ (fun m hm => removeAll_ml_eq_self m hm) cw h
  · rfl

theorem cruiseItemEffect_eq_self : ∀ item : Node, noMoreLess item = true →
    cruiseItemEffect item = item
  | .text s, _ => rfl
  | .elem t c cs, h => by
    show (match cs.filter isDiv with
      | d1 :: _ :: _ =>
        match cruiseDayOf d1 with
        | none => Node.elem t c cs
        | some _ =>
          Node.elem t c (replaceSndDiv
            (fun d2 => (mapFirstD (isTagClass "div" "content-wrap") cruiseCwEffect d2).1) cs)
      | _ => Node.elem t c cs) = Node.elem t c cs
    split
    · split
      · rfl
      · congr 1
        apply replaceSndDiv_eq_self
        intro m hm
        exact mapFirstD_eq_self _ _ (fun u hu => cruiseCwEffect_eq_self u hu) m
          (noMoreLess_of_mem (noMoreLess_children h) hm)
    · rfl

theorem cruiseContainerEffect_eq_self (cont : Node) (h : noMoreLess cont = true) :
    cruiseContainerEffect cont = cont :=
  mapAllD_eq_self _ _ (fun m hm => cruiseItemEffect_eq_self m hm) cont h

/-- C9 as amended: the extractors are functions of the parsed tree (the
tour extractors perform no tree mutation at all), and the cruise
extractor leaves the tree unchanged whenever the tree contains no
`more`/`less` toggle span — the only mutation it ever performs is the
`decompose` of such spans inside a processed `descr` div. -/
theorem cruise_effect_clean (soup : Node) (h : noMoreLess soup = true) :
    cruiseEffect soup = soup := by
  unfold cruiseEffect
  split
  · exact mapFirstD_eq_self _ _ (fun m hm => cruiseContainerEffect_eq_self m hm) soup h
  · split
    · exact mapFirstD_eq_self _ _ (fun m hm => cruiseContainerEffect_eq_self m hm) soup h
    · rfl

/-- C9, counterexample: the cruise extractor is not pure on the shared
tree — on the concrete page `mutSoup` (whose day body lives in a
`descr` div holding a `More` toggle span) the extraction decomposes
that span, leaving a different tree behind. -/
theorem cruise_extractor_mutates : cruiseEffect mutSoup ≠ mutSoup :=
  fun h => absurd (congrArg getTextStrip h) (by decide)

/-- Witness for C9 as amended: the concrete toggle-free cruise page is
left unchanged by extraction. -/
theorem cruise_effect_clean_witness : cruiseEffect cruiseSoupA = cruiseSoupA :=
  cruise_effect_clean cruiseSoupA (by decide)
